import Mathlib

/-!
Verification of the bracket-indexed key decoder and its typed validation,
embedded from `src/4_nested_union/model.py` of cyanidium/pydantic-form-example.

The decoder (`Person.json_editor_parse` together with `indexed_dicts_to_lists`
and the auto-vivifying `NestedDict`) is translated function by function into
executable Lean definitions over `PyVal`, a shallow model of the Python values
the decoder manipulates.  The schema validator that consumes the decoder's
output is the pydantic library, external to the repository; it is modelled
from the specification's SchemaValidator contract together with the field
declarations of `Person`, `Address`, `Friend` and `FamilyMember` in the source.
-/

/-- A Python value as manipulated by the decoder: strings, ints, bools, None,
lists, and dicts.  A dict carries a flag telling whether it is a `NestedDict`
(the source's auto-vivifying dict subclass) or a plain `dict`; entries are kept
in insertion order, as Python dicts do.  Dict keys are modelled as `List Char`
(the character sequence of the Python string key). -/
inductive PyVal where
  | vstr (s : String)
  | vint (n : Int)
  | vbool (b : Bool)
  | vnone
  | vlist (xs : List PyVal)
  | vdict (auto : Bool) (entries : List (List Char × PyVal))

instance : Inhabited PyVal := ⟨.vnone⟩

/-- The ways the decode phase of `json_editor_parse` can abort, mirroring the
Python exceptions that escape it: the explicit
`ValueError("List index must be a number")`, the `TypeError` raised when a
scalar is subscripted or item-assigned, and the `KeyError` raised when a
missing key is read from a plain (non-`NestedDict`) dict. -/
inductive PyErr where
  | valueError
  | typeError
  | keyError
deriving DecidableEq

/-- Python `str.isdigit` on the character list of a string: nonempty and all
digits (ASCII model). -/
def pyIsdigit (l : List Char) : Bool :=
  !l.isEmpty && l.all Char.isDigit

/-- Python `int(s)` on an all-digit string: the decimal value. -/
def pyInt (l : List Char) : Nat :=
  l.foldl (fun a c => a * 10 + (c.toNat - 48)) 0

/-- Python dict read `d[k]`: first (and only) entry with the given key. -/
def getEntry (es : List (List Char × PyVal)) (k : List Char) : Option PyVal :=
  match es with
  | [] => none
  | (k', v) :: rest => if k' = k then some v else getEntry rest k

/-- Python dict assignment `d[k] = v`: update in place if the key exists
(keeping its position), otherwise append at the end. -/
def setEntry (es : List (List Char × PyVal)) (k : List Char) (v : PyVal) :
    List (List Char × PyVal) :=
  match es with
  | [] => [(k, v)]
  | (k', v') :: rest => if k' = k then (k, v) :: rest else (k', v') :: setEntry rest k v

/-- Python `while len(parent) <= idx: parent.append(fill)`: pad the list with
`fill` until its length is at least `n`. -/
def padTo (xs : List PyVal) (n : Nat) (fill : PyVal) : List PyVal :=
  xs ++ List.replicate (n - xs.length) fill

/-- Python `type(v)()`: the zero value of `v`'s runtime type. -/
def pyDefault : PyVal → PyVal
  | .vstr _ => .vstr ""
  | .vint _ => .vint 0
  | .vbool _ => .vbool false
  | .vnone => .vnone
  | .vlist _ => .vlist []
  | .vdict auto _ => .vdict auto []

/-- The leaf assignment of `json_editor_parse` (lines 152-160 of model.py):
on a list, the index must be numeric, the list is padded with `type(v)()` and
the element set; on a dict, a plain dict assignment; on a scalar, Python
raises `TypeError` (item assignment on a non-container). -/
def assignLeaf (parent : PyVal) (leaf : List Char) (v : PyVal) : Except PyErr PyVal :=
  match parent with
  | .vlist xs =>
      if !pyIsdigit leaf then .error .valueError
      else
        let idx := pyInt leaf
        .ok (.vlist ((padTo xs (idx + 1) (pyDefault v)).set idx v))
  | .vdict auto es => .ok (.vdict auto (setEntry es leaf v))
  | _ => .error .typeError

/-- The segment walk of `json_editor_parse` (lines 137-160 of model.py),
rendered functionally: walking into a list pads it (choosing `list` or
`NestedDict` for fresh elements by looking at the next segment) and recurses
into the addressed element; walking into a `NestedDict` auto-creates a missing
child; walking into a plain dict with a missing key raises `KeyError`;
walking into a scalar raises `TypeError`.  The rebuilt parent is returned. -/
def insertWalk (parent : PyVal) (subKs : List (List Char)) (leaf : List Char)
    (v : PyVal) : Except PyErr PyVal :=
  match subKs with
  | [] => assignLeaf parent leaf v
  | subK :: rest =>
      match parent with
      | .vlist xs =>
          if !pyIsdigit subK then .error .valueError
          else
            let fill : PyVal :=
              match rest with
              | r :: _ => if pyIsdigit r then .vlist [] else .vdict true []
              | [] => .vdict true []
            let idx := pyInt subK
            let padded := padTo xs (idx + 1) fill
            match insertWalk (padded.getD idx .vnone) rest leaf v with
            | .ok child => .ok (.vlist (padded.set idx child))
            | .error e => .error e
      | .vdict auto es =>
          match getEntry es subK with
          | some child =>
              match insertWalk child rest leaf v with
              | .ok c => .ok (.vdict auto (setEntry es subK c))
              | .error e => .error e
          | none =>
              if auto then
                match insertWalk (.vdict true []) rest leaf v with
                | .ok c => .ok (.vdict auto (es ++ [(subK, c)]))
                | .error e => .error e
              else .error .keyError
      | _ => .error .typeError

/-- Split a character sequence on the two-character separator `][`, exactly as
Python `s.split("][")`: leftmost-first, non-overlapping. -/
def splitBr : List Char → List (List Char)
  | [] => [[]]
  | [c] => [[c]]
  | c₁ :: c₂ :: rest =>
      if c₁ = ']' && c₂ = '[' then [] :: splitBr rest
      else
        match splitBr (c₂ :: rest) with
        | [] => [[c₁]]
        | s :: ss => (c₁ :: s) :: ss

/-- The key recognition and splitting of `json_editor_parse` (lines 134-136):
a key starting with `root[` and ending with `]` is structured; stripping the
prefix and suffix and splitting on `][` gives the segments, of which the last
is the leaf.  Any other key is flat (`none`). -/
def parseKey (k : List Char) : Option (List (List Char) × List Char) :=
  match k with
  | 'r' :: 'o' :: 'o' :: 't' :: '[' :: rest =>
      if rest.getLast? = some ']' then
        let parts := splitBr rest.dropLast
        some (parts.dropLast, parts.getLastD [])
      else none
  | _ => none

/-- One iteration of the `for k, v in data.items()` loop of
`json_editor_parse`: a structured key is inserted by the segment walk, a flat
key is assigned directly on the top-level dict. -/
def parseItem (out : PyVal) (k : List Char) (v : PyVal) : Except PyErr PyVal :=
  match parseKey k with
  | some (subKs, leaf) => insertWalk out subKs leaf v
  | none =>
      match out with
      | .vdict auto es => .ok (.vdict auto (setEntry es k v))
      | other => .ok other

/-- Do all entries of a dict have keys for which Python `isdigit` is true? -/
def allDigitKeys (es : List (List Char × PyVal)) : Bool :=
  es.all fun kv => pyIsdigit kv.1

mutual

/-- `indexed_dicts_to_lists` from model.py (lines 12-34).  A non-dict is
returned unchanged; a nonempty dict whose keys are all digits becomes the list
of its converted values in insertion order; any other dict is rebuilt (as a
plain dict) converting each entry value. -/
def indexed_dicts_to_lists : PyVal → PyVal
  | .vdict _ es =>
      if es.length != 0 && allDigitKeys es then .vlist (convValues es)
      else .vdict false (convEntries es)
  | v => v

/-- The values of a dict, each converted by `indexed_dicts_to_lists`
(the list comprehension of lines 18 and 24). -/
def convValues : List (List Char × PyVal) → List PyVal
  | [] => []
  | kv :: rest => indexed_dicts_to_lists kv.2 :: convValues rest

/-- The entry loop of lines 20-33: each entry value is converted by
`convEntry`, keys and order preserved. -/
def convEntries : List (List Char × PyVal) → List (List Char × PyVal)
  | [] => []
  | kv :: rest => (kv.1, convEntry kv.2) :: convEntries rest

/-- Conversion of one dict entry value (lines 22-33): a dict whose keys are
all digits (vacuously including the empty dict) becomes a list of its
converted values; any other dict is rebuilt converting each entry (this is
`indexed_dicts_to_lists(v)` of line 27, unfolded one step: such a `v` is
nonempty with a non-digit key, so the recursive call takes the rebuild
branch); a list is converted elementwise (line 30); a leaf is kept. -/
def convEntry : PyVal → PyVal
  | .vdict _ es =>
      if allDigitKeys es then .vlist (convValues es)
      else .vdict false (convEntries es)
  | .vlist xs => .vlist (convList xs)
  | v => v

/-- Elementwise conversion of a list value (line 30). -/
def convList : List PyVal → List PyVal
  | [] => []
  | x :: rest => indexed_dicts_to_lists x :: convList rest

end

/-- `Person.json_editor_parse` (lines 128-165 of model.py) on a dict input:
fold the items into a fresh `NestedDict` and normalise the result with
`indexed_dicts_to_lists`.  An escaping Python exception is an `.error`. -/
def json_editor_parse (data : List (List Char × PyVal)) : Except PyErr PyVal :=
  (data.foldlM (fun out kv => parseItem out kv.1 kv.2) (.vdict true [])).map
    indexed_dicts_to_lists

/-- `get_discriminator_value` from model.py (lines 37-40), for dict input:
`v.get("_type", None)`. -/
def get_discriminator_value (v : PyVal) : Option PyVal :=
  match v with
  | .vdict _ es => getEntry es "_type".toList
  | _ => none

/-! ## Decimal numerals

The wire format carries numbers as decimal strings.  `natChars` is the decimal
numeral of a natural number (as Python `str(n)` produces for the serializer),
built from Mathlib's `Nat.digits`; `pyInt`/`parseNat?`/`parseInt?` parse them
back. -/

/-- The character of a single decimal digit. -/
def digitChar (d : Nat) : Char := Char.ofNat (d + 48)

/-- The decimal numeral of a natural number, most significant digit first. -/
def natChars (n : Nat) : List Char :=
  if n = 0 then ['0'] else ((Nat.digits 10 n).map digitChar).reverse

/-- The decimal numeral of a natural number, as a string. -/
def natStr (n : Nat) : String := ⟨natChars n⟩

/-- Python `str` of an integer: minus sign followed by the decimal numeral of
the absolute value. -/
def intChars (n : Int) : List Char :=
  if n < 0 then '-' :: natChars n.natAbs else natChars n.toNat

/-- Integer numeral as a string. -/
def intStr (n : Int) : String := ⟨intChars n⟩

/-- Parse an all-digit character sequence as a natural number; `none` if empty
or containing a non-digit. -/
def parseNat? (l : List Char) : Option Nat :=
  if pyIsdigit l then some (pyInt l) else none

/-- Parse an optionally minus-signed decimal numeral as an integer. -/
def parseInt? (l : List Char) : Option Int :=
  match l with
  | '-' :: rest => (parseNat? rest).map (fun n => -(n : Int))
  | _ => (parseNat? l).map (fun n => (n : Int))

/-! ## The typed schema

The target domain model, from the field declarations of `Address`, `Contact`,
`Friend`, `FamilyMember` and `Person` in model.py.  Timestamps
(`Friend.known_since`) are abstracted to a scalar that serializes to a decimal
numeral and parses back, per the specification's single fixed timestamp
profile. -/

/-- `Address` (model.py lines 51-56). -/
structure Address where
  house_number : Int
  street : String
  city : String
deriving DecidableEq

/-- A validated member of the contacts union: `Contact` itself and its
subclasses `Friend` and `FamilyMember` (model.py lines 59-110; the union at
line 123 includes the base class, since `get_annotated_subclass_types` is
called with its default `include_self=True`). -/
inductive Contact where
  | contact (name : String)
  | friend (name : String) (known_since : Nat)
  | familyMember (name : String) (relationship : String)
deriving DecidableEq

/-- `Person` (model.py lines 113-126), with the declared defaults. -/
structure Person where
  name : String
  age : Nat
  job : String := "Developer"
  address : Option Address := none
  hobbies : List String := []
  contacts : List Contact := []
deriving DecidableEq

/-! ## The `_type` computed property (model.py lines 78-87)

`Contact._type` is a computed read-only property: the getter returns the
instance's class name; the setter raises `ValueError` on every input — one
message when the value differs from the class name, another when it is
equal. -/

/-- The concrete classes of the contact hierarchy. -/
inductive ContactClass where
  | contact
  | friend
  | familyMember
deriving DecidableEq

/-- `self.__class__.__name__` for each contact class. -/
def className : ContactClass → String
  | .contact => "Contact"
  | .familyMember => "FamilyMember"
  | .friend => "Friend"

/-- The `_type` property getter (model.py lines 78-81). -/
def typeGetter (c : ContactClass) : String := className c

/-- The `_type` property setter (model.py lines 83-87): raising is modelled as
returning the `ValueError` message. -/
def typeSetter (c : ContactClass) (v : String) : Except String Unit :=
  if v ≠ className c then
    .error ("Incorrectly loading a " ++ v ++ " as " ++ className c ++ " object")
  else
    .error "Cannot set _type attribute directly"

/-! ## The schema validator

Modelled from the spec: the SchemaValidator contract of section 4.4 (the
validation engine in the repository is the pydantic library, which is outside
the repository's own sources), instantiated at the schema declared by
`Person` in model.py.  Errors carry a path (list of segments under the root)
and a kind; sibling errors are accumulated, never short-circuited. -/

/-- Validator error kinds (spec sections 4.4 and 7). -/
inductive ErrKind where
  | MissingField
  | MissingDiscriminator
  | UnknownVariant
  | TypeMismatch
deriving DecidableEq

/-- One validation error record: path under the root, and kind. -/
structure VErr where
  path : List String
  kind : ErrKind
deriving DecidableEq

/-- Render an error path in the bracket syntax of the input keys. -/
def renderPath (segs : List String) : String :=
  "root" ++ String.join (segs.map fun s => "[" ++ s ++ "]")

/-- Combine two independent validation results, accumulating the error lists
of both sides (validation does not short-circuit across sibling fields). -/
def mergeE {α β γ : Type} (f : α → β → γ) :
    Except (List VErr) α → Except (List VErr) β → Except (List VErr) γ
  | .ok a, .ok b => .ok (f a b)
  | .error e, .ok _ => .error e
  | .ok _, .error e => .error e
  | .error e₁, .error e₂ => .error (e₁ ++ e₂)

/-- Validate a string scalar. -/
def vStr (path : List String) : PyVal → Except (List VErr) String
  | .vstr s => .ok s
  | _ => .error [⟨path, .TypeMismatch⟩]

/-- Validate a non-negative integer scalar (`pydantic.NonNegativeInt`), with
the lax string-to-int coercion form data relies on; a negative value is a
`TypeMismatch`. -/
def vNat (path : List String) : PyVal → Except (List VErr) Nat
  | .vstr s =>
      match parseInt? s.toList with
      | some n => if 0 ≤ n then .ok n.toNat else .error [⟨path, .TypeMismatch⟩]
      | none => .error [⟨path, .TypeMismatch⟩]
  | .vint n => if 0 ≤ n then .ok n.toNat else .error [⟨path, .TypeMismatch⟩]
  | _ => .error [⟨path, .TypeMismatch⟩]

/-- Validate an integer scalar, with lax string-to-int coercion. -/
def vInt (path : List String) : PyVal → Except (List VErr) Int
  | .vstr s =>
      match parseInt? s.toList with
      | some n => .ok n
      | none => .error [⟨path, .TypeMismatch⟩]
  | .vint n => .ok n
  | _ => .error [⟨path, .TypeMismatch⟩]

/-- Validate a timestamp scalar (abstracted to a decimal numeral). -/
def vTimestamp (path : List String) : PyVal → Except (List VErr) Nat
  | .vstr s =>
      match parseNat? s.toList with
      | some n => .ok n
      | none => .error [⟨path, .TypeMismatch⟩]
  | _ => .error [⟨path, .TypeMismatch⟩]

/-- Validate a required field of a dict: absent means `MissingField`. -/
def reqField {α : Type} (es : List (List Char × PyVal)) (base : List String)
    (f : String) (val : List String → PyVal → Except (List VErr) α) :
    Except (List VErr) α :=
  match getEntry es f.toList with
  | some v => val (base ++ [f]) v
  | none => .error [⟨base ++ [f], .MissingField⟩]

/-- Validate an optional/defaulted field of a dict: absent means the
default. -/
def optField {α : Type} (es : List (List Char × PyVal)) (base : List String)
    (f : String) (dflt : α) (val : List String → PyVal → Except (List VErr) α) :
    Except (List VErr) α :=
  match getEntry es f.toList with
  | some v => val (base ++ [f]) v
  | none => .ok dflt

/-- Validate an `Address` object. -/
def vAddress (base : List String) : PyVal → Except (List VErr) Address
  | .vdict _ es =>
      mergeE (fun hn sc => ⟨hn, sc.1, sc.2⟩)
        (reqField es base "house_number" vInt)
        (mergeE Prod.mk (reqField es base "street" vStr)
          (reqField es base "city" vStr))
  | _ => .error [⟨base, .TypeMismatch⟩]

/-- Validate one member of the contacts union: dispatch on the value of the
source's `get_discriminator_value` — absent means `MissingDiscriminator`, a
value that is no declared variant name means `UnknownVariant` — then validate
the chosen variant's fields. -/
def vContact (base : List String) (v : PyVal) : Except (List VErr) Contact :=
  match v with
  | .vdict _ es =>
      match get_discriminator_value v with
      | none => .error [⟨base, .MissingDiscriminator⟩]
      | some (.vstr t) =>
          if t = "Contact" then
            (reqField es base "name" vStr).map .contact
          else if t = "Friend" then
            mergeE .friend (reqField es base "name" vStr)
              (reqField es base "known_since" vTimestamp)
          else if t = "FamilyMember" then
            mergeE .familyMember (reqField es base "name" vStr)
              (reqField es base "relationship" vStr)
          else .error [⟨base, .UnknownVariant⟩]
      | some _ => .error [⟨base, .UnknownVariant⟩]
  | _ => .error [⟨base, .TypeMismatch⟩]

/-- Validate a sequence of strings, indexing error paths. -/
def vStrList (base : List String) (i : Nat) :
    List PyVal → Except (List VErr) (List String)
  | [] => .ok []
  | x :: rest =>
      mergeE List.cons (vStr (base ++ [natStr i]) x) (vStrList base (i + 1) rest)

/-- Validate a sequence of contacts, indexing error paths. -/
def vContactList (base : List String) (i : Nat) :
    List PyVal → Except (List VErr) (List Contact)
  | [] => .ok []
  | x :: rest =>
      mergeE List.cons (vContact (base ++ [natStr i]) x) (vContactList base (i + 1) rest)

/-- Validate a normalized tree against the `Person` schema: `name` and `age`
required, `job` defaulted to `"Developer"`, `address` optional, `hobbies` and
`contacts` defaulted to empty sequences.  All field errors are accumulated
into one report. -/
def validatePerson (v : PyVal) : Except (List VErr) Person :=
  match v with
  | .vdict _ es =>
      let rAddr : Except (List VErr) (Option Address) :=
        match getEntry es "address".toList with
        | none => .ok none
        | some .vnone => .ok none
        | some w => (vAddress ["address"] w).map some
      let rHob : Except (List VErr) (List String) :=
        match getEntry es "hobbies".toList with
        | none => .ok []
        | some (.vlist xs) => vStrList ["hobbies"] 0 xs
        | some _ => .error [⟨["hobbies"], .TypeMismatch⟩]
      let rCon : Except (List VErr) (List Contact) :=
        match getEntry es "contacts".toList with
        | none => .ok []
        | some (.vlist xs) => vContactList ["contacts"] 0 xs
        | some _ => .error [⟨["contacts"], .TypeMismatch⟩]
      mergeE (fun n r => ⟨n, r.1, r.2.1, r.2.2.1, r.2.2.2.1, r.2.2.2.2⟩)
        (reqField es [] "name" vStr)
        (mergeE Prod.mk (reqField es [] "age" vNat)
          (mergeE Prod.mk (optField es [] "job" "Developer" vStr)
            (mergeE Prod.mk rAddr (mergeE Prod.mk rHob rCon))))
  | _ => .error [⟨[], .TypeMismatch⟩]

/-- A whole decode-and-validate call can fail in the decode phase (a single
fatal error) or the validation phase (an accumulated report). -/
inductive FormError where
  | decode (e : PyErr)
  | validation (errs : List VErr)
deriving DecidableEq

/-- The full pipeline on a flat form: `json_editor_parse` then the schema
validation of `Person`. -/
def person_from_form (data : List (List Char × PyVal)) : Except FormError Person :=
  match json_editor_parse data with
  | .error e => .error (.decode e)
  | .ok tree =>
      match validatePerson tree with
      | .error errs => .error (.validation errs)
      | .ok p => .ok p

/-! ## The flat-bracket serializer

Modelled from the spec: the wire format of section 6 and the round-trip
property of section 8 speak of serializing a typed value to the flat bracket
form; the repository has no server-side flat serializer (the browser-side
form widget produces these keys), so the canonical one is defined here:
depth-first, field order as declared, indices ascending. -/

/-- One bracketed segment of a key. -/
def brSeg (s : List Char) : List Char := '[' :: (s ++ [']'])

/-- A bracket key `root[s1][s2]...[sn]`. -/
def mkKey (segs : List (List Char)) : List Char :=
  "root".toList ++ (segs.map brSeg).flatten

/-- The flat items of one contact at index `i`: its `_type` tag and its
variant's fields. -/
def flattenContact (i : Nat) (c : Contact) : List (List Char × PyVal) :=
  match c with
  | .contact nm =>
      [(mkKey ["contacts".toList, natChars i, "_type".toList], .vstr "Contact"),
       (mkKey ["contacts".toList, natChars i, "name".toList], .vstr nm)]
  | .friend nm ts =>
      [(mkKey ["contacts".toList, natChars i, "_type".toList], .vstr "Friend"),
       (mkKey ["contacts".toList, natChars i, "name".toList], .vstr nm),
       (mkKey ["contacts".toList, natChars i, "known_since".toList], .vstr (natStr ts))]
  | .familyMember nm r =>
      [(mkKey ["contacts".toList, natChars i, "_type".toList], .vstr "FamilyMember"),
       (mkKey ["contacts".toList, natChars i, "name".toList], .vstr nm),
       (mkKey ["contacts".toList, natChars i, "relationship".toList], .vstr r)]

/-- Serialize a `Person` to the flat bracket form. -/
def flattenPerson (p : Person) : List (List Char × PyVal) :=
  [(mkKey ["name".toList], .vstr p.name),
   (mkKey ["age".toList], .vstr (natStr p.age)),
   (mkKey ["job".toList], .vstr p.job)]
  ++ (match p.address with
      | none => []
      | some a =>
          [(mkKey ["address".toList, "house_number".toList], .vstr (intStr a.house_number)),
           (mkKey ["address".toList, "street".toList], .vstr a.street),
           (mkKey ["address".toList, "city".toList], .vstr a.city)])
  ++ (p.hobbies.enum.map fun ih => (mkKey ["hobbies".toList, natChars ih.1], .vstr ih.2))
  ++ (p.contacts.enum.map fun ic => flattenContact ic.1 ic.2).flatten

/-! ## Tree shapes produced by decoding a serialized person

These describe the intermediate tree `json_editor_parse` builds from
`flattenPerson p` (before and after normalization); they are the reference
points of the round-trip proof. -/

/-- The raw sub-dict the walk builds for one serialized contact. -/
def contactTree : Contact → PyVal
  | .contact nm =>
      .vdict true [("_type".toList, .vstr "Contact"), ("name".toList, .vstr nm)]
  | .friend nm ts =>
      .vdict true [("_type".toList, .vstr "Friend"), ("name".toList, .vstr nm),
        ("known_since".toList, .vstr (natStr ts))]
  | .familyMember nm r =>
      .vdict true [("_type".toList, .vstr "FamilyMember"), ("name".toList, .vstr nm),
        ("relationship".toList, .vstr r)]

/-- The normalized sub-dict for one serialized contact. -/
def contactTreeNorm : Contact → PyVal
  | .contact nm =>
      .vdict false [("_type".toList, .vstr "Contact"), ("name".toList, .vstr nm)]
  | .friend nm ts =>
      .vdict false [("_type".toList, .vstr "Friend"), ("name".toList, .vstr nm),
        ("known_since".toList, .vstr (natStr ts))]
  | .familyMember nm r =>
      .vdict false [("_type".toList, .vstr "FamilyMember"), ("name".toList, .vstr nm),
        ("relationship".toList, .vstr r)]

/-- The raw top-level entries contributed by the address, if any. -/
def addrEntriesRaw : Option Address → List (List Char × PyVal)
  | none => []
  | some a =>
      [("address".toList, .vdict true
        [("house_number".toList, .vstr (intStr a.house_number)),
         ("street".toList, .vstr a.street),
         ("city".toList, .vstr a.city)])]

/-- The index-keyed pairs the walk accumulates for the hobbies, starting at
index `i`. -/
def hobPairs (i : Nat) (hs : List String) : List (List Char × PyVal) :=
  (hs.enumFrom i).map fun ih => (natChars ih.1, PyVal.vstr ih.2)

/-- The raw top-level entries contributed by the hobbies, if any. -/
def hobEntriesRaw (hs : List String) : List (List Char × PyVal) :=
  match hs with
  | [] => []
  | _ => [("hobbies".toList, .vdict true (hobPairs 0 hs))]

/-- The index-keyed pairs the walk accumulates for the contacts, starting at
index `i`. -/
def conPairs (i : Nat) (cs : List Contact) : List (List Char × PyVal) :=
  (cs.enumFrom i).map fun ic => (natChars ic.1, contactTree ic.2)

/-- The raw top-level entries contributed by the contacts, if any. -/
def conEntriesRaw (cs : List Contact) : List (List Char × PyVal) :=
  match cs with
  | [] => []
  | _ => [("contacts".toList, .vdict true (conPairs 0 cs))]

/-- The whole raw tree `flattenPerson p` folds into (before normalization). -/
def rawTree (p : Person) : PyVal :=
  .vdict true
    ([("name".toList, .vstr p.name),
      ("age".toList, .vstr (natStr p.age)),
      ("job".toList, .vstr p.job)]
     ++ addrEntriesRaw p.address ++ hobEntriesRaw p.hobbies ++ conEntriesRaw p.contacts)

/-- The normalized top-level entries for the address. -/
def addrEntriesNorm : Option Address → List (List Char × PyVal)
  | none => []
  | some a =>
      [("address".toList, .vdict false
        [("house_number".toList, .vstr (intStr a.house_number)),
         ("street".toList, .vstr a.street),
         ("city".toList, .vstr a.city)])]

/-- The normalized top-level entries for the hobbies. -/
def hobEntriesNorm (hs : List String) : List (List Char × PyVal) :=
  match hs with
  | [] => []
  | _ => [("hobbies".toList, .vlist (hs.map PyVal.vstr))]

/-- The normalized top-level entries for the contacts. -/
def conEntriesNorm (cs : List Contact) : List (List Char × PyVal) :=
  match cs with
  | [] => []
  | _ => [("contacts".toList, .vlist (cs.map contactTreeNorm))]

/-- The normalized tree decoding `flattenPerson p` yields. -/
def normTree (p : Person) : PyVal :=
  .vdict false
    ([("name".toList, .vstr p.name),
      ("age".toList, .vstr (natStr p.age)),
      ("job".toList, .vstr p.job)]
     ++ addrEntriesNorm p.address ++ hobEntriesNorm p.hobbies ++ conEntriesNorm p.contacts)


/-! ## Theorems -/

/-- Claim C6 counterexample: the code never reports a malformed key.  A key
with unbalanced brackets (`root[hobbies`, no closing bracket) decodes
successfully — it is inserted verbatim as a flat top-level field — and a key
with an empty segment (`root[]`) decodes successfully to an empty-string
field name.  Neither aborts, contradicting the claimed MalformedKey
failure. -/
theorem malformed_keys_are_accepted :
    json_editor_parse [("root[hobbies".toList, .vstr "x")]
      = .ok (.vdict false [("root[hobbies".toList, .vstr "x")]) ∧
    json_editor_parse [("root[]".toList, .vstr "x")]
      = .ok (.vdict false [("".toList, .vstr "x")]) :=
  ⟨rfl, rfl⟩

/-- Claim C6 amended: a raw key that does not match the
`root[...]...]` shape is not an error: it is treated as a flat key and
assigned directly as a top-level field of the tree. -/
theorem flat_key_inserted_verbatim (k : List Char) (v : PyVal) (auto : Bool)
    (es : List (List Char × PyVal)) (h : parseKey k = none) :
    parseItem (.vdict auto es) k v = .ok (.vdict auto (setEntry es k v)) := by
  unfold parseItem
  rw [h]

/-- Witness for `flat_key_inserted_verbatim` at the unbalanced key
`root[hobbies`. -/
theorem flat_key_inserted_verbatim_witness :
    parseKey "root[hobbies".toList = none ∧
    parseItem (.vdict true []) "root[hobbies".toList (.vstr "x")
      = .ok (.vdict true (setEntry [] "root[hobbies".toList (.vstr "x"))) :=
  ⟨by decide, flat_key_inserted_verbatim _ _ _ _ (by decide)⟩

/-- Claim C7: inserting `root[address]` with a scalar value and then
`root[address][street]` aborts the whole decode: the walk reaches the scalar
stored at `address` and item-assigns a field on it, which raises the
`TypeError` that realises the spec's PathKindConflict — a decode-phase fatal
error, so no partial tree reaches validation. -/
theorem scalar_then_object_conflict_aborts :
    person_from_form
        [("root[address]".toList, .vstr "foo"),
         ("root[address][street]".toList, .vstr "Main")]
      = .error (.decode .typeError) :=
  rfl

/-- Claim C2 counterexample: decoding is not order independent.  The two forms
below contain the same key-value pairs (the second is a permutation of the
first, swapping the two hobbies keys), yet they decode and validate to two
different persons — the hobbies sequences come out in the two different
submission orders. -/
theorem decode_is_order_dependent :
    List.Perm
        [("root[name]".toList, PyVal.vstr "John"), ("root[age]".toList, PyVal.vstr "30"),
         ("root[hobbies][0]".toList, PyVal.vstr "Walking"), ("root[hobbies][1]".toList, PyVal.vstr "Reading")]
        [("root[name]".toList, PyVal.vstr "John"), ("root[age]".toList, PyVal.vstr "30"),
         ("root[hobbies][1]".toList, PyVal.vstr "Reading"), ("root[hobbies][0]".toList, PyVal.vstr "Walking")] ∧
    person_from_form
        [("root[name]".toList, .vstr "John"), ("root[age]".toList, .vstr "30"),
         ("root[hobbies][0]".toList, .vstr "Walking"), ("root[hobbies][1]".toList, .vstr "Reading")]
      = .ok { name := "John", age := 30, hobbies := ["Walking", "Reading"] } ∧
    person_from_form
        [("root[name]".toList, .vstr "John"), ("root[age]".toList, .vstr "30"),
         ("root[hobbies][1]".toList, .vstr "Reading"), ("root[hobbies][0]".toList, .vstr "Walking")]
      = .ok { name := "John", age := 30, hobbies := ["Reading", "Walking"] } ∧
    ({ name := "John", age := 30, hobbies := ["Walking", "Reading"] } : Person)
      ≠ { name := "John", age := 30, hobbies := ["Reading", "Walking"] } := by
  refine ⟨.cons _ (.cons _ (.swap _ _ _)), rfl, rfl, by decide⟩

/-- Claim C2 amended: decoding depends on key order exactly through the
insertion order of array index keys — each of the two submission orders
yields the hobbies sequence in its own submission order. -/
theorem decode_follows_submission_order :
    json_editor_parse
        [("root[hobbies][0]".toList, .vstr "Walking"), ("root[hobbies][1]".toList, .vstr "Reading")]
      = .ok (.vdict false [("hobbies".toList, .vlist [.vstr "Walking", .vstr "Reading"])]) ∧
    json_editor_parse
        [("root[hobbies][1]".toList, .vstr "Reading"), ("root[hobbies][0]".toList, .vstr "Walking")]
      = .ok (.vdict false [("hobbies".toList, .vlist [.vstr "Reading", .vstr "Walking"])]) :=
  ⟨rfl, rfl⟩

/-- Claim C3 counterexample: the normalizer does not sort numeric keys.
Submitting `root[hobbies][1]=Reading` before `root[hobbies][0]=Walking`
decodes to the sequence `["Reading", "Walking"]` — insertion order — which is
not the claimed `["Walking", "Reading"]`. -/
theorem normalizer_does_not_sort :
    json_editor_parse
        [("root[hobbies][1]".toList, .vstr "Reading"), ("root[hobbies][0]".toList, .vstr "Walking")]
      = .ok (.vdict false [("hobbies".toList, .vlist [.vstr "Reading", .vstr "Walking"])]) ∧
    (PyVal.vlist [.vstr "Reading", .vstr "Walking"]
      ≠ PyVal.vlist [.vstr "Walking", .vstr "Reading"]) :=
  ⟨rfl, by simp⟩

/-- Claim C3 amended: an all-numeric-keyed object node is reinterpreted as
the sequence of its children in insertion order — the order in which the
index keys were first submitted — so this input yields
`["Reading", "Walking"]`. -/
theorem normalizer_keeps_insertion_order :
    json_editor_parse
        [("root[hobbies][1]".toList, .vstr "Reading"), ("root[hobbies][0]".toList, .vstr "Walking")]
      = .ok (.vdict false [("hobbies".toList, .vlist [.vstr "Reading", .vstr "Walking"])]) :=
  rfl

/-- Claim C4 counterexample: with only `root[hobbies][2]=Jogging` submitted,
the decoded hobbies sequence is `["Jogging"]` of length 1 — the gap indices
0 and 1 are collapsed, not padded with zero-values — which is not the claimed
length-3 sequence. -/
theorem gap_indices_are_collapsed :
    json_editor_parse [("root[hobbies][2]".toList, .vstr "Jogging")]
      = .ok (.vdict false [("hobbies".toList, .vlist [.vstr "Jogging"])]) ∧
    (PyVal.vlist [.vstr "Jogging"]
      ≠ PyVal.vlist [.vstr "", .vstr "", .vstr "Jogging"]) :=
  ⟨rfl, by simp⟩

/-- Claim C4 amended: the pad-with-zero-value behaviour exists only in the
"field with default list already created" branch: when the data already holds
a real list for the field (here a flat `hobbies` key with an empty list), the
index-2 assignment pads positions 0 and 1 with the element type's zero value
`""` and the decoded sequence has length 3 with `"Jogging"` at position 2. -/
theorem gap_padding_on_existing_list :
    json_editor_parse
        [("hobbies".toList, .vlist []), ("root[hobbies][2]".toList, .vstr "Jogging")]
      = .ok (.vdict false
          [("hobbies".toList, .vlist [.vstr "", .vstr "", .vstr "Jogging"])]) :=
  rfl

/-- Claim C5: discriminated union dispatch.  With `_type=FamilyMember` the
element at `contacts[0]` validates as the FamilyMember variant with name
`"Bob"` and relationship `"Father"`; with `_type=Unknown` the whole
validation fails with a single UnknownVariant error whose path renders as
`root[contacts][0]`. -/
theorem union_dispatch_and_unknown_variant :
    person_from_form
        [("root[name]".toList, .vstr "John"), ("root[age]".toList, .vstr "30"),
         ("root[contacts][0][_type]".toList, .vstr "FamilyMember"),
         ("root[contacts][0][name]".toList, .vstr "Bob"),
         ("root[contacts][0][relationship]".toList, .vstr "Father")]
      = .ok { name := "John", age := 30, contacts := [.familyMember "Bob" "Father"] } ∧
    person_from_form
        [("root[name]".toList, .vstr "John"), ("root[age]".toList, .vstr "30"),
         ("root[contacts][0][_type]".toList, .vstr "Unknown"),
         ("root[contacts][0][name]".toList, .vstr "Bob"),
         ("root[contacts][0][relationship]".toList, .vstr "Father")]
      = .error (.validation [⟨["contacts", "0"], .UnknownVariant⟩]) ∧
    renderPath ["contacts", "0"] = "root[contacts][0]" :=
  ⟨rfl, rfl, rfl⟩

/-- Claim C8 counterexample: validating the empty flat form yields MissingField
errors for `name` and `age` only — `job` is declared with the default
`"Developer"` in the source (model.py line 118), so no MissingField error for
`job` appears, contradicting the claimed three errors. -/
theorem empty_form_two_missing_fields_only :
    person_from_form []
      = .error (.validation
          [⟨["name"], .MissingField⟩, ⟨["age"], .MissingField⟩]) ∧
    (⟨["job"], .MissingField⟩ : VErr)
      ∉ [(⟨["name"], .MissingField⟩ : VErr), ⟨["age"], .MissingField⟩] :=
  ⟨rfl, by decide⟩

/-- Claim C8 amended: `name` and `age` are the required fields with no
defaults; validating the empty form reports a MissingField error for each of
the two simultaneously in one report — neither short-circuits the other —
while `job` silently takes its declared default. -/
theorem empty_form_accumulates_missing_fields :
    person_from_form []
      = .error (.validation
          [⟨["name"], .MissingField⟩, ⟨["age"], .MissingField⟩]) ∧
    (⟨["name"], .MissingField⟩ : VErr)
      ∈ [(⟨["name"], .MissingField⟩ : VErr), ⟨["age"], .MissingField⟩] ∧
    (⟨["age"], .MissingField⟩ : VErr)
      ∈ [(⟨["name"], .MissingField⟩ : VErr), ⟨["age"], .MissingField⟩] :=
  ⟨rfl, by decide, by decide⟩

/-- Claim C9: the `_type` setter raises `ValueError` for every assigned string
— including the instance's own class name, which hits the dedicated
"Cannot set _type attribute directly" branch — so no assignment ever
succeeds, while the getter always returns the class name. -/
theorem type_attribute_is_read_only (c : ContactClass) (s : String) :
    (typeSetter c s).isOk = false ∧
    typeSetter c (className c) = .error "Cannot set _type attribute directly" ∧
    typeGetter c = className c := by
  refine ⟨?_, ?_, rfl⟩
  · unfold typeSetter
    split <;> rfl
  · simp [typeSetter]

/-- `convEntries` preserves the keys of a dict. -/
theorem convEntries_fst : ∀ es, (convEntries es).map Prod.fst = es.map Prod.fst
  | [] => rfl
  | kv :: rest => by simp [convEntries, convEntries_fst rest]

/-- `allDigitKeys` only looks at keys, which `convEntries` preserves. -/
theorem allDigitKeys_convEntries : ∀ es : List (List Char × PyVal),
    allDigitKeys (convEntries es) = allDigitKeys es
  | [] => rfl
  | kv :: rest => by
      have ih := allDigitKeys_convEntries rest
      simp only [convEntries, allDigitKeys, List.all_cons] at *
      rw [ih]

/-- `convEntries` preserves the number of entries. -/
theorem convEntries_length (es : List (List Char × PyVal)) :
    (convEntries es).length = es.length := by
  have := congrArg List.length (convEntries_fst es)
  simpa using this

/-- Idempotence of the normalizer and its companions, simultaneously, by
strong induction on size. -/
theorem conv_idem_aux : ∀ n : Nat,
    (∀ v : PyVal, sizeOf v ≤ n →
      indexed_dicts_to_lists (indexed_dicts_to_lists v) = indexed_dicts_to_lists v) ∧
    (∀ v : PyVal, sizeOf v ≤ n → convEntry (convEntry v) = convEntry v) ∧
    (∀ es : List (List Char × PyVal), sizeOf es ≤ n →
      convEntries (convEntries es) = convEntries es) ∧
    (∀ xs : List PyVal, sizeOf xs ≤ n → convList (convList xs) = convList xs) ∧
    (∀ es : List (List Char × PyVal), sizeOf es ≤ n →
      convList (convValues es) = convValues es) := by
  intro n
  induction n using Nat.strong_induction_on with
  | _ n ih =>
    refine ⟨?_, ?_, ?_, ?_, ?_⟩
    · intro v hv
      match v with
      | .vstr _ | .vint _ | .vbool _ | .vnone | .vlist _ => rfl
      | .vdict b es =>
          by_cases hc : (es.length != 0 && allDigitKeys es) = true
          · simp [indexed_dicts_to_lists, hc]
          · have hes : sizeOf es < n := by
              have : sizeOf es < sizeOf (PyVal.vdict b es) := by
                simp
              omega
            have hrec := (ih (sizeOf es) hes).2.2.1 es le_rfl
            simp only [indexed_dicts_to_lists, hc, if_false]
            have hc' : ((convEntries es).length != 0 && allDigitKeys (convEntries es)) = false := by
              rw [convEntries_length, allDigitKeys_convEntries]
              simpa using hc
            simp [indexed_dicts_to_lists, hc', hrec]
    · intro v hv
      match v with
      | .vstr _ | .vint _ | .vbool _ | .vnone => rfl
      | .vlist xs =>
          have hxs : sizeOf xs < n := by
            have : sizeOf xs < sizeOf (PyVal.vlist xs) := by simp
            omega
          have hrec := (ih (sizeOf xs) hxs).2.2.2.1 xs le_rfl
          simp [convEntry, hrec]
      | .vdict b es =>
          have hes : sizeOf es < n := by
            have : sizeOf es < sizeOf (PyVal.vdict b es) := by simp
            omega
          by_cases hc : allDigitKeys es = true
          · have hrec := (ih (sizeOf es) hes).2.2.2.2 es le_rfl
            simp [convEntry, hc, hrec]
          · have hrec := (ih (sizeOf es) hes).2.2.1 es le_rfl
            have hc' : allDigitKeys (convEntries es) = false := by
              rw [allDigitKeys_convEntries]
              simpa using hc
            simp [convEntry, hc, hc', hrec]
    · intro es hes
      match es with
      | [] => rfl
      | kv :: rest =>
          have h1 : sizeOf kv.2 < n := by
            have : sizeOf kv.2 < sizeOf (kv :: rest) := by
              cases kv
              simp
              omega
            omega
          have h2 : sizeOf rest < n := by
            have : sizeOf rest < sizeOf (kv :: rest) := by simp
            omega
          have hv := (ih (sizeOf kv.2) h1).2.1 kv.2 le_rfl
          have hr := (ih (sizeOf rest) h2).2.2.1 rest le_rfl
          simp [convEntries, hv, hr]
    · intro xs hxs
      match xs with
      | [] => rfl
      | x :: rest =>
          have h1 : sizeOf x < n := by
            have : sizeOf x < sizeOf (x :: rest) := by
              simp
              omega
            omega
          have h2 : sizeOf rest < n := by
            have : sizeOf rest < sizeOf (x :: rest) := by simp
            omega
          have hv := (ih (sizeOf x) h1).1 x le_rfl
          have hr := (ih (sizeOf rest) h2).2.2.2.1 rest le_rfl
          simp [convList, hv, hr]
    · intro es hes
      match es with
      | [] => rfl
      | kv :: rest =>
          have h1 : sizeOf kv.2 < n := by
            have : sizeOf kv.2 < sizeOf (kv :: rest) := by
              cases kv
              simp
              omega
            omega
          have h2 : sizeOf rest < n := by
            have : sizeOf rest < sizeOf (kv :: rest) := by simp
            omega
          have hv := (ih (sizeOf kv.2) h1).1 kv.2 le_rfl
          have hr := (ih (sizeOf rest) h2).2.2.2.2 rest le_rfl
          simp [convValues, convList, hv, hr]

/-- Claim C10: the array normalizer is idempotent — applying
`indexed_dicts_to_lists` to its own output changes nothing, for every
intermediate tree. -/
theorem indexed_dicts_to_lists_idempotent (v : PyVal) :
    indexed_dicts_to_lists (indexed_dicts_to_lists v) = indexed_dicts_to_lists v :=
  (conv_idem_aux (sizeOf v)).1 v le_rfl

/-! ### Decimal numerals round-trip -/

/-- Digit characters are digits. -/
theorem digitChar_isDigit {d : Nat} (h : d < 10) : (digitChar d).isDigit = true := by
  interval_cases d <;> decide

/-- Reading back the value of a digit character. -/
theorem digitChar_val {d : Nat} (h : d < 10) : (digitChar d).toNat - 48 = d := by
  interval_cases d <;> decide

/-- Every character of a decimal numeral is a digit. -/
theorem natChars_all_digits (n : Nat) : ∀ c ∈ natChars n, c.isDigit = true := by
  intro c hc
  unfold natChars at hc
  by_cases h : n = 0
  · simp [h] at hc
    simp [hc]
  · simp [h] at hc
    obtain ⟨d, hd, rfl⟩ := hc
    exact digitChar_isDigit (Nat.digits_lt_base (by norm_num) hd)

/-- A decimal numeral is never empty. -/
theorem natChars_ne_nil (n : Nat) : natChars n ≠ [] := by
  unfold natChars
  by_cases h : n = 0
  · simp [h]
  · simp [h, Nat.digits_ne_nil_iff_ne_zero]

/-- Decimal numerals satisfy Python `isdigit`. -/
theorem pyIsdigit_natChars (n : Nat) : pyIsdigit (natChars n) = true := by
  have h1 := natChars_ne_nil n
  have h2 := natChars_all_digits n
  simp [pyIsdigit, List.isEmpty_iff, h1, List.all_eq_true]
  exact h2

/-- Folding the decimal digits of `ds` (read most significant first) on top of
an accumulator. -/
theorem foldl_digitChars (ds : List Nat) (hds : ∀ d ∈ ds, d < 10) (a : Nat) :
    List.foldl (fun acc c => acc * 10 + (c.toNat - 48)) a ((ds.map digitChar).reverse)
      = a * 10 ^ ds.length + Nat.ofDigits 10 ds := by
  induction ds generalizing a with
  | nil => simp
  | cons d ds ih =>
      have hd : d < 10 := hds d (by simp)
      have hds' : ∀ x ∈ ds, x < 10 := fun x hx => hds x (by simp [hx])
      simp only [List.map_cons, List.reverse_cons, List.foldl_append, List.foldl_cons,
        List.foldl_nil, ih hds']
      rw [digitChar_val hd, Nat.ofDigits_cons, List.length_cons, pow_succ]
      ring

/-- `pyInt` inverts `natChars`. -/
theorem pyInt_natChars (n : Nat) : pyInt (natChars n) = n := by
  by_cases h : n = 0
  · subst h
    decide
  · unfold pyInt natChars
    simp only [h, if_false]
    rw [foldl_digitChars _ (fun d hd => Nat.digits_lt_base (by norm_num) hd)]
    simp [Nat.ofDigits_digits]

/-- `parseNat?` inverts `natChars`. -/
theorem parseNat?_natChars (n : Nat) : parseNat? (natChars n) = some n := by
  simp [parseNat?, pyIsdigit_natChars, pyInt_natChars]

/-- Decimal numerals are injective. -/
theorem natChars_inj {a b : Nat} (h : natChars a = natChars b) : a = b := by
  have := pyInt_natChars a
  rw [h, pyInt_natChars] at this
  omega

/-- A decimal numeral contains no closing bracket. -/
theorem natChars_no_rbracket (n : Nat) : ']' ∉ natChars n := by
  intro hmem
  have := natChars_all_digits n ']' hmem
  simp at this

/-- Unfolding `parseInt?` on a minus-signed numeral. -/
theorem parseInt?_minus (l : List Char) :
    parseInt? ('-' :: l) = (parseNat? l).map (fun n => -(n : Int)) := rfl

/-- `parseInt?` inverts `natChars` (a numeral never starts with a minus
sign). -/
theorem parseInt?_natChars (n : Nat) : parseInt? (natChars n) = some (n : Int) := by
  unfold parseInt?
  split
  · next rest heq =>
      exfalso
      have := natChars_all_digits n '-' (by rw [heq]; simp)
      simp at this
  · rw [parseNat?_natChars]
    rfl

/-- `parseInt?` inverts `intChars`. -/
theorem parseInt?_intChars (m : Int) : parseInt? (intChars m) = some m := by
  unfold intChars
  by_cases h : m < 0
  · simp only [h, if_true]
    rw [parseInt?_minus, parseNat?_natChars]
    show some (-(m.natAbs : Int)) = some m
    simp only [Option.some.injEq]
    omega
  · simp only [h, if_false]
    rw [parseInt?_natChars]
    congr 1
    omega

/-! ### Key splitting -/

/-- A separator-free (no closing bracket) sequence splits into itself. -/
theorem splitBr_single : ∀ s : List Char, ']' ∉ s → splitBr s = [s]
  | [], _ => rfl
  | [_], _ => rfl
  | c₁ :: c₂ :: rest, h => by
      have hc₁ : c₁ ≠ ']' := fun hc => h (by simp [hc])
      have ih := splitBr_single (c₂ :: rest) fun hmem => h (List.mem_cons_of_mem c₁ hmem)
      simp only [splitBr]
      rw [ih]
      simp [hc₁]

/-- Splitting a sequence that starts with a separator-free segment followed by
an explicit `][` separator peels off that segment. -/
theorem splitBr_sep : ∀ s t : List Char, ']' ∉ s →
    splitBr (s ++ ']' :: '[' :: t) = s :: splitBr t
  | [], t, _ => by
      show splitBr (']' :: '[' :: t) = [] :: splitBr t
      simp only [splitBr]
      simp
  | c :: s, t, h => by
      have hc : c ≠ ']' := fun hc => h (by simp [hc])
      have ih := splitBr_sep s t fun hmem => h (List.mem_cons_of_mem c hmem)
      show splitBr (c :: (s ++ ']' :: '[' :: t)) = (c :: s) :: splitBr t
      rcases hst : s ++ ']' :: '[' :: t with _ | ⟨d, ds⟩
      · exact absurd hst (by simp)
      · rw [hst] at ih
        simp only [splitBr]
        rw [ih]
        simp [hc]

/-- The segments of a key, interleaved with `][` separators. -/
def sepJoin : List (List Char) → List Char
  | [] => []
  | [s] => s
  | s :: rest => s ++ ']' :: '[' :: sepJoin rest

/-- The bracketed body of a key is the separator-interleaved join followed by
the final closing bracket. -/
theorem flatten_brSeg : ∀ segs : List (List Char), segs ≠ [] →
    (segs.map brSeg).flatten = '[' :: (sepJoin segs ++ [']'])
  | [], h => absurd rfl h
  | [s], _ => by simp [brSeg, sepJoin]
  | s :: s' :: rest, _ => by
      have ih := flatten_brSeg (s' :: rest) (by simp)
      show brSeg s ++ (List.map brSeg (s' :: rest)).flatten = _
      rw [ih]
      simp [brSeg, sepJoin]

/-- Splitting the separator-interleaved join recovers the segments. -/
theorem splitBr_sepJoin : ∀ segs : List (List Char), segs ≠ [] →
    (∀ seg ∈ segs, ']' ∉ seg) → splitBr (sepJoin segs) = segs
  | [], h, _ => absurd rfl h
  | [s], _, hb => by
      show splitBr s = [s]
      exact splitBr_single s (hb s (by simp))
  | s :: s' :: rest, _, hb => by
      have ih := splitBr_sepJoin (s' :: rest) (by simp)
        (fun seg hseg => hb seg (by simp at hseg ⊢; tauto))
      show splitBr (s ++ ']' :: '[' :: sepJoin (s' :: rest)) = _
      rw [splitBr_sep _ _ (hb s (by simp)), ih]

/-- `parseKey` recovers the segments of a serialized key: the walk segments
are all but the last, the leaf is the last. -/
theorem parseKey_mkKey (segs : List (List Char)) (hne : segs ≠ [])
    (hb : ∀ seg ∈ segs, ']' ∉ seg) :
    parseKey (mkKey segs) = some (segs.dropLast, segs.getLastD []) := by
  have hkey : mkKey segs = 'r' :: 'o' :: 'o' :: 't' :: '[' :: (sepJoin segs ++ [']']) := by
    unfold mkKey
    rw [flatten_brSeg segs hne]
    rfl
  rw [hkey]
  show (if (sepJoin segs ++ [']']).getLast? = some ']' then
      some ((splitBr (sepJoin segs ++ [']']).dropLast).dropLast,
        (splitBr (sepJoin segs ++ [']']).dropLast).getLastD [])
    else none) = _
  rw [List.getLast?_concat, List.dropLast_concat, splitBr_sepJoin segs hne hb]
  simp

/-! ### Dict and walk step lemmas -/

/-- Looking up the key at the head of a dict. -/
theorem getEntry_cons_self (k : List Char) (v : PyVal) (es : List (List Char × PyVal)) :
    getEntry ((k, v) :: es) k = some v := by
  simp [getEntry]

/-- Looking up a key different from the head. -/
theorem getEntry_cons_ne {k' k : List Char} (h : k' ≠ k) (v : PyVal)
    (es : List (List Char × PyVal)) : getEntry ((k', v) :: es) k = getEntry es k := by
  simp [getEntry, h]

/-- Absence of a key is absence from the key list. -/
theorem getEntry_eq_none_iff (es : List (List Char × PyVal)) (k : List Char) :
    getEntry es k = none ↔ k ∉ es.map Prod.fst := by
  induction es with
  | nil => simp [getEntry]
  | cons kv rest ih =>
      obtain ⟨k', v⟩ := kv
      by_cases h : k' = k
      · subst h
        rw [getEntry_cons_self]
        simp
      · rw [getEntry_cons_ne h, ih]
        simp [Ne.symm h]

/-- A lookup skips a prefix that does not contain the key. -/
theorem getEntry_append_none : ∀ (l₁ l₂ : List (List Char × PyVal)) (k : List Char),
    getEntry l₁ k = none → getEntry (l₁ ++ l₂) k = getEntry l₂ k
  | [], _, _, _ => rfl
  | (k', v) :: rest, l₂, k, h => by
      have hk : k' ≠ k := by
        intro hk
        subst hk
        rw [getEntry_cons_self] at h
        exact Option.noConfusion h
      rw [getEntry_cons_ne hk] at h
      show getEntry ((k', v) :: (rest ++ l₂)) k = getEntry l₂ k
      rw [getEntry_cons_ne hk, getEntry_append_none rest l₂ k h]

/-- Assignment on a dict whose head has the key. -/
theorem setEntry_cons_self (k : List Char) (v' v : PyVal) (es : List (List Char × PyVal)) :
    setEntry ((k, v') :: es) k v = (k, v) :: es := by
  simp [setEntry]

/-- Assignment skips a prefix that does not contain the key. -/
theorem setEntry_append_none : ∀ (l₁ l₂ : List (List Char × PyVal)) (k : List Char) (v : PyVal),
    getEntry l₁ k = none → setEntry (l₁ ++ l₂) k v = l₁ ++ setEntry l₂ k v
  | [], _, _, _, _ => rfl
  | (k', v') :: rest, l₂, k, v, h => by
      have hk : k' ≠ k := by
        intro hk
        subst hk
        rw [getEntry_cons_self] at h
        exact Option.noConfusion h
      rw [getEntry_cons_ne hk] at h
      show setEntry ((k', v') :: (rest ++ l₂)) k v = (k', v') :: (rest ++ setEntry l₂ k v)
      simp [setEntry, hk, setEntry_append_none rest l₂ k v h]

/-- Assignment of a fresh key appends it at the end. -/
theorem setEntry_fresh : ∀ (es : List (List Char × PyVal)) (k : List Char) (v : PyVal),
    getEntry es k = none → setEntry es k v = es ++ [(k, v)]
  | [], _, _, _ => rfl
  | (k', v') :: rest, k, v, h => by
      have hk : k' ≠ k := by
        intro hk
        subst hk
        rw [getEntry_cons_self] at h
        exact Option.noConfusion h
      rw [getEntry_cons_ne hk] at h
      simp [setEntry, hk, setEntry_fresh rest k v h]

/-- An index key of a fresh index is absent from an accumulator whose keys are
the numerals of the smaller indices. -/
theorem getEntry_fresh_index {acc : List (List Char × PyVal)} {i : Nat}
    (h : acc.map Prod.fst = (List.range i).map natChars) :
    getEntry acc (natChars i) = none := by
  rw [getEntry_eq_none_iff, h]
  intro hmem
  obtain ⟨j, hj, hje⟩ := List.mem_map.mp hmem
  have hji : j = i := natChars_inj hje
  subst hji
  exact absurd (List.mem_range.mp hj) (lt_irrefl j)

/-- A structured key is handled by the segment walk. -/
theorem parseItem_structured {k : List Char} {sks : List (List Char)} {leaf : List Char}
    (h : parseKey k = some (sks, leaf)) (out : PyVal) (v : PyVal) :
    parseItem out k v = insertWalk out sks leaf v := by
  unfold parseItem
  rw [h]

/-- The walk at the final segment is the leaf assignment. -/
theorem insertWalk_nil (d : PyVal) (leaf : List Char) (v : PyVal) :
    insertWalk d [] leaf v = assignLeaf d leaf v := rfl

/-- Walking into an existing child of a dict rebuilds that child in place. -/
theorem insertWalk_dict_found {es : List (List Char × PyVal)} {s : List Char}
    {child : PyVal} (hfound : getEntry es s = some child) {rest : List (List Char)}
    {leaf : List Char} {v c : PyVal} (hrec : insertWalk child rest leaf v = .ok c)
    (auto : Bool) :
    insertWalk (.vdict auto es) (s :: rest) leaf v
      = .ok (.vdict auto (setEntry es s c)) := by
  unfold insertWalk
  dsimp only
  rw [hfound]
  dsimp only
  rw [hrec]

/-- Walking into a missing child of a `NestedDict` creates it and appends the
rebuilt child at the end. -/
theorem insertWalk_dict_fresh {es : List (List Char × PyVal)} {s : List Char}
    (hmiss : getEntry es s = none) {rest : List (List Char)} {leaf : List Char}
    {v c : PyVal} (hrec : insertWalk (.vdict true []) rest leaf v = .ok c) :
    insertWalk (.vdict true es) (s :: rest) leaf v
      = .ok (.vdict true (es ++ [(s, c)])) := by
  unfold insertWalk
  dsimp only
  rw [hmiss]
  dsimp only
  rw [hrec]
  simp

/-- Leaf assignment on a dict. -/
theorem assignLeaf_dict (auto : Bool) (es : List (List Char × PyVal))
    (leaf : List Char) (v : PyVal) :
    assignLeaf (.vdict auto es) leaf v = .ok (.vdict auto (setEntry es leaf v)) := rfl

/-! ### Batch insertion of serialized fields -/

/-- Walking through an existing entry sitting at the end of a dict rebuilds it
in place. -/
theorem walk_into_entry {pre : List (List Char × PyVal)} {key : List Char}
    (hpre : getEntry pre key = none) {D D' : PyVal} {rest : List (List Char)}
    {leaf : List Char} {v : PyVal} (h : insertWalk D rest leaf v = .ok D') :
    insertWalk (.vdict true (pre ++ [(key, D)])) (key :: rest) leaf v
      = .ok (.vdict true (pre ++ [(key, D')])) := by
  have hfound : getEntry (pre ++ [(key, D)]) key = some D := by
    rw [getEntry_append_none _ _ _ hpre, getEntry_cons_self]
  rw [insertWalk_dict_found hfound h, setEntry_append_none _ _ _ _ hpre,
    setEntry_cons_self]

/-- Walking through a missing entry of a `NestedDict` creates it at the end. -/
theorem walk_create_entry {pre : List (List Char × PyVal)} {key : List Char}
    (hpre : getEntry pre key = none) {rest : List (List Char)} {leaf : List Char}
    {v c : PyVal} (h : insertWalk (.vdict true []) rest leaf v = .ok c) :
    insertWalk (.vdict true pre) (key :: rest) leaf v
      = .ok (.vdict true (pre ++ [(key, c)])) :=
  insertWalk_dict_fresh hpre h

/-- A successful item step advances the fold. -/
theorem foldlM_parse_cons {out out' : PyVal} {k : List Char} {v : PyVal}
    (h : parseItem out k v = .ok out') (rest : List (List Char × PyVal)) :
    List.foldlM (fun o kv => parseItem o kv.1 kv.2) out ((k, v) :: rest)
      = List.foldlM (fun o kv => parseItem o kv.1 kv.2) out' rest := by
  rw [List.foldlM_cons]
  show (parseItem out k v).bind _ = _
  rw [h]
  rfl

/-- `parseKey` on a two-segment serialized key. -/
theorem parseKey_mkKey₂ (f g : List Char) (hf : ']' ∉ f) (hg : ']' ∉ g) :
    parseKey (mkKey [f, g]) = some ([f], g) := by
  have h := parseKey_mkKey [f, g] (by simp) (by
    intro seg hseg
    simp only [List.mem_cons, List.not_mem_nil, or_false] at hseg
    rcases hseg with rfl | rfl
    · exact hf
    · exact hg)
  simpa using h

/-- `parseKey` on a three-segment serialized key. -/
theorem parseKey_mkKey₃ (f g h : List Char) (hf : ']' ∉ f) (hg : ']' ∉ g)
    (hh : ']' ∉ h) : parseKey (mkKey [f, g, h]) = some ([f, g], h) := by
  have hp := parseKey_mkKey [f, g, h] (by simp) (by
    intro seg hseg
    simp only [List.mem_cons, List.not_mem_nil, or_false] at hseg
    rcases hseg with rfl | rfl | rfl
    · exact hf
    · exact hg
    · exact hh)
  simpa using hp

/-- `hobPairs` unfolds one hobby at a time. -/
theorem hobPairs_cons (i : Nat) (h : String) (t : List String) :
    hobPairs i (h :: t) = (natChars i, PyVal.vstr h) :: hobPairs (i + 1) t := by
  simp [hobPairs, List.enumFrom_cons]

/-- `conPairs` unfolds one contact at a time. -/
theorem conPairs_cons (i : Nat) (c : Contact) (t : List Contact) :
    conPairs i (c :: t) = (natChars i, contactTree c) :: conPairs (i + 1) t := by
  simp [conPairs, List.enumFrom_cons]

/-- Folding the serialized hobbies from index `i` onwards into a tree whose
hobbies dict holds exactly the numerals below `i` appends the remaining
pairs in order. -/
theorem hobbies_loop (hs : List String) : ∀ (i : Nat) (pre acc : List (List Char × PyVal)),
    getEntry pre "hobbies".toList = none →
    acc.map Prod.fst = (List.range i).map natChars →
    List.foldlM (fun o kv => parseItem o kv.1 kv.2)
        (PyVal.vdict true (pre ++ [("hobbies".toList, PyVal.vdict true acc)]))
        ((hs.enumFrom i).map fun ih => (mkKey ["hobbies".toList, natChars ih.1], PyVal.vstr ih.2))
      = .ok (.vdict true (pre ++ [("hobbies".toList, .vdict true (acc ++ hobPairs i hs))])) := by
  induction hs with
  | nil =>
      intro i pre acc hpre hacc
      simp [hobPairs, List.enumFrom]
      rfl
  | cons h t ih =>
      intro i pre acc hpre hacc
      rw [List.enumFrom_cons, List.map_cons]
      have hkey : parseKey (mkKey ["hobbies".toList, natChars i])
          = some (["hobbies".toList], natChars i) :=
        parseKey_mkKey₂ _ _ (by decide) (natChars_no_rbracket i)
      have hfresh : getEntry acc (natChars i) = none := getEntry_fresh_index hacc
      have hinner : insertWalk (.vdict true acc) [] (natChars i) (.vstr h)
          = .ok (.vdict true (acc ++ [(natChars i, .vstr h)])) := by
        rw [insertWalk_nil, assignLeaf_dict, setEntry_fresh _ _ _ hfresh]
      have hstep : parseItem
          (PyVal.vdict true (pre ++ [("hobbies".toList, PyVal.vdict true acc)]))
          (mkKey ["hobbies".toList, natChars i]) (.vstr h)
          = .ok (.vdict true (pre ++ [("hobbies".toList,
              .vdict true (acc ++ [(natChars i, .vstr h)]))])) := by
        rw [parseItem_structured hkey]
        exact walk_into_entry hpre hinner
      rw [foldlM_parse_cons hstep]
      have hacc' : (acc ++ [(natChars i, PyVal.vstr h)]).map Prod.fst
          = (List.range (i + 1)).map natChars := by
        rw [List.map_append, hacc, List.range_succ, List.map_append]
        simp
      rw [ih (i + 1) pre _ hpre hacc', hobPairs_cons]
      simp

/-- Folding all serialized hobbies into a tree with no hobbies entry yet
produces exactly the raw hobbies entries. -/
theorem hobbies_group (hs : List String) (pre : List (List Char × PyVal))
    (hpre : getEntry pre "hobbies".toList = none) :
    List.foldlM (fun o kv => parseItem o kv.1 kv.2) (PyVal.vdict true pre)
        ((hs.enumFrom 0).map fun ih => (mkKey ["hobbies".toList, natChars ih.1], PyVal.vstr ih.2))
      = .ok (.vdict true (pre ++ hobEntriesRaw hs)) := by
  cases hs with
  | nil =>
      simp [hobEntriesRaw, List.enumFrom]
      rfl
  | cons h t =>
      rw [List.enumFrom_cons, List.map_cons]
      have hkey : parseKey (mkKey ["hobbies".toList, natChars 0])
          = some (["hobbies".toList], natChars 0) :=
        parseKey_mkKey₂ _ _ (by decide) (natChars_no_rbracket 0)
      have hinner : insertWalk (.vdict true []) [] (natChars 0) (.vstr h)
          = .ok (.vdict true [(natChars 0, .vstr h)]) := rfl
      have hstep : parseItem (PyVal.vdict true pre)
          (mkKey ["hobbies".toList, natChars 0]) (.vstr h)
          = .ok (.vdict true (pre ++ [("hobbies".toList,
              .vdict true [(natChars 0, .vstr h)])])) := by
        rw [parseItem_structured hkey]
        exact walk_create_entry hpre hinner
      rw [foldlM_parse_cons hstep]
      rw [hobbies_loop t 1 pre [(natChars 0, PyVal.vstr h)] hpre
        (by rw [show List.range 1 = [0] from rfl]; rfl)]
      rw [show hobEntriesRaw (h :: t)
          = [("hobbies".toList, PyVal.vdict true (hobPairs 0 (h :: t)))] from rfl,
        hobPairs_cons]
      simp

/-- Bind of a successful `Except` computation. -/
theorem except_bind_ok {ε α β : Type} (a : α) (f : α → Except ε β) :
    (Except.ok a : Except ε α) >>= f = f a := rfl

/-- Inserting the first field of contact `i` when the contacts dict exists and
index `i` is fresh: the index entry is created holding a one-field dict. -/
theorem contact_key_step_first {pre cacc : List (List Char × PyVal)} {i : Nat}
    {fld : List Char} {v : PyVal}
    (hpre : getEntry pre "contacts".toList = none)
    (hacc : getEntry cacc (natChars i) = none) (hfld : ']' ∉ fld) :
    parseItem (.vdict true (pre ++ [("contacts".toList, .vdict true cacc)]))
        (mkKey ["contacts".toList, natChars i, fld]) v
      = .ok (.vdict true (pre ++ [("contacts".toList,
          .vdict true (cacc ++ [(natChars i, .vdict true [(fld, v)])]))])) := by
  rw [parseItem_structured
    (parseKey_mkKey₃ _ _ _ (by decide) (natChars_no_rbracket i) hfld)]
  exact walk_into_entry hpre (walk_create_entry hacc rfl)

/-- Inserting a later field of contact `i`: the walk descends into the
existing index entry sitting at the end of the contacts dict and assigns the
field there. -/
theorem contact_key_step_next {pre cacc tes : List (List Char × PyVal)} {i : Nat}
    {fld : List Char} {v : PyVal}
    (hpre : getEntry pre "contacts".toList = none)
    (hacc : getEntry cacc (natChars i) = none) (hfld : ']' ∉ fld) :
    parseItem (.vdict true (pre ++ [("contacts".toList,
        .vdict true (cacc ++ [(natChars i, .vdict true tes)]))]))
        (mkKey ["contacts".toList, natChars i, fld]) v
      = .ok (.vdict true (pre ++ [("contacts".toList,
          .vdict true (cacc ++ [(natChars i, .vdict true (setEntry tes fld v))]))])) := by
  rw [parseItem_structured
    (parseKey_mkKey₃ _ _ _ (by decide) (natChars_no_rbracket i) hfld)]
  exact walk_into_entry hpre (walk_into_entry hacc rfl)

/-- Inserting the first field of the first contact when the contacts dict does
not exist yet: everything down the path is created. -/
theorem contact_key_step_create {pre : List (List Char × PyVal)} {fld : List Char}
    {v : PyVal} (hpre : getEntry pre "contacts".toList = none) (hfld : ']' ∉ fld) :
    parseItem (.vdict true pre) (mkKey ["contacts".toList, natChars 0, fld]) v
      = .ok (.vdict true (pre ++ [("contacts".toList,
          .vdict true [(natChars 0, .vdict true [(fld, v)])])])) := by
  rw [parseItem_structured
    (parseKey_mkKey₃ _ _ _ (by decide) (natChars_no_rbracket 0) hfld)]
  have h := walk_create_entry hpre
    (walk_create_entry (show getEntry [] (natChars 0) = none from rfl)
      (rfl : insertWalk (.vdict true []) [] fld v = .ok (.vdict true [(fld, v)])))
  simpa using h

/-- `contact_key_step_next` for a one-entry contacts dict. -/
theorem contact_key_step_next0 {pre tes : List (List Char × PyVal)} {i : Nat}
    {fld : List Char} {v : PyVal}
    (hpre : getEntry pre "contacts".toList = none) (hfld : ']' ∉ fld) :
    parseItem (.vdict true (pre ++ [("contacts".toList,
        .vdict true [(natChars i, .vdict true tes)])]))
        (mkKey ["contacts".toList, natChars i, fld]) v
      = .ok (.vdict true (pre ++ [("contacts".toList,
          .vdict true [(natChars i, .vdict true (setEntry tes fld v))])])) := by
  have h := @contact_key_step_next pre [] tes i fld v hpre rfl hfld
  simpa using h

/-- Folding all serialized fields of contact `i` appends its finished sub-dict
at index `i` of the contacts dict. -/
theorem contact_insert (c : Contact) (i : Nat) (pre cacc : List (List Char × PyVal))
    (hpre : getEntry pre "contacts".toList = none)
    (hacc : cacc.map Prod.fst = (List.range i).map natChars) :
    List.foldlM (fun o kv => parseItem o kv.1 kv.2)
        (PyVal.vdict true (pre ++ [("contacts".toList, PyVal.vdict true cacc)]))
        (flattenContact i c)
      = .ok (.vdict true (pre ++ [("contacts".toList,
          .vdict true (cacc ++ [(natChars i, contactTree c)]))])) := by
  have hfresh := getEntry_fresh_index hacc
  cases c with
  | contact nm =>
      simp only [flattenContact]
      rw [foldlM_parse_cons (contact_key_step_first hpre hfresh (by decide)),
        foldlM_parse_cons (contact_key_step_next hpre hfresh (by decide))]
      rfl
  | friend nm ts =>
      simp only [flattenContact]
      rw [foldlM_parse_cons (contact_key_step_first hpre hfresh (by decide)),
        foldlM_parse_cons (contact_key_step_next hpre hfresh (by decide)),
        foldlM_parse_cons (contact_key_step_next hpre hfresh (by decide))]
      rfl
  | familyMember nm r =>
      simp only [flattenContact]
      rw [foldlM_parse_cons (contact_key_step_first hpre hfresh (by decide)),
        foldlM_parse_cons (contact_key_step_next hpre hfresh (by decide)),
        foldlM_parse_cons (contact_key_step_next hpre hfresh (by decide))]
      rfl

/-- Folding all serialized fields of the first contact, with no contacts dict
yet. -/
theorem contact_insert_create (c : Contact) (pre : List (List Char × PyVal))
    (hpre : getEntry pre "contacts".toList = none) :
    List.foldlM (fun o kv => parseItem o kv.1 kv.2) (PyVal.vdict true pre)
        (flattenContact 0 c)
      = .ok (.vdict true (pre ++ [("contacts".toList,
          .vdict true [(natChars 0, contactTree c)])])) := by
  cases c with
  | contact nm =>
      simp only [flattenContact]
      rw [foldlM_parse_cons (contact_key_step_create hpre (by decide)),
        foldlM_parse_cons (contact_key_step_next0 hpre (by decide))]
      rfl
  | friend nm ts =>
      simp only [flattenContact]
      rw [foldlM_parse_cons (contact_key_step_create hpre (by decide)),
        foldlM_parse_cons (contact_key_step_next0 hpre (by decide)),
        foldlM_parse_cons (contact_key_step_next0 hpre (by decide))]
      rfl
  | familyMember nm r =>
      simp only [flattenContact]
      rw [foldlM_parse_cons (contact_key_step_create hpre (by decide)),
        foldlM_parse_cons (contact_key_step_next0 hpre (by decide)),
        foldlM_parse_cons (contact_key_step_next0 hpre (by decide))]
      rfl

/-- Folding the serialized contacts from index `i` onwards. -/
theorem contacts_loop (cs : List Contact) : ∀ (i : Nat) (pre cacc : List (List Char × PyVal)),
    getEntry pre "contacts".toList = none →
    cacc.map Prod.fst = (List.range i).map natChars →
    List.foldlM (fun o kv => parseItem o kv.1 kv.2)
        (PyVal.vdict true (pre ++ [("contacts".toList, PyVal.vdict true cacc)]))
        (((cs.enumFrom i).map fun ic => flattenContact ic.1 ic.2).flatten)
      = .ok (.vdict true (pre ++ [("contacts".toList,
          .vdict true (cacc ++ conPairs i cs))])) := by
  induction cs with
  | nil =>
      intro i pre cacc hpre hacc
      simp [conPairs, List.enumFrom]
      rfl
  | cons c t ih =>
      intro i pre cacc hpre hacc
      rw [List.enumFrom_cons, List.map_cons, List.flatten_cons, List.foldlM_append,
        contact_insert c i pre cacc hpre hacc, except_bind_ok]
      have hacc' : (cacc ++ [(natChars i, contactTree c)]).map Prod.fst
          = (List.range (i + 1)).map natChars := by
        rw [List.map_append, hacc, List.range_succ, List.map_append]
        simp
      rw [ih (i + 1) pre _ hpre hacc', conPairs_cons]
      simp

/-- Folding all serialized contacts into a tree with no contacts entry yet
produces exactly the raw contacts entries. -/
theorem contacts_group (cs : List Contact) (pre : List (List Char × PyVal))
    (hpre : getEntry pre "contacts".toList = none) :
    List.foldlM (fun o kv => parseItem o kv.1 kv.2) (PyVal.vdict true pre)
        (((cs.enumFrom 0).map fun ic => flattenContact ic.1 ic.2).flatten)
      = .ok (.vdict true (pre ++ conEntriesRaw cs)) := by
  cases cs with
  | nil =>
      simp [conEntriesRaw, List.enumFrom]
      rfl
  | cons c t =>
      rw [List.enumFrom_cons, List.map_cons, List.flatten_cons, List.foldlM_append,
        contact_insert_create c pre hpre, except_bind_ok]
      rw [contacts_loop t 1 pre [(natChars 0, contactTree c)] hpre
        (by rw [show List.range 1 = [0] from rfl]; rfl)]
      rw [show conEntriesRaw (c :: t)
          = [("contacts".toList, PyVal.vdict true (conPairs 0 (c :: t)))] from rfl,
        conPairs_cons]
      simp

/-- Composing two successful fold runs over concatenated items. -/
theorem foldlM_append_ok {f : PyVal → (List Char × PyVal) → Except PyErr PyVal}
    {init mid fin : PyVal} {l₁ l₂ : List (List Char × PyVal)}
    (h₁ : List.foldlM f init l₁ = .ok mid) (h₂ : List.foldlM f mid l₂ = .ok fin) :
    List.foldlM f init (l₁ ++ l₂) = .ok fin := by
  rw [List.foldlM_append, h₁, except_bind_ok, h₂]

/-- Folding all items of a serialized person from the empty `NestedDict`
builds exactly the raw tree. -/
theorem fold_flattenPerson (p : Person) :
    List.foldlM (fun o kv => parseItem o kv.1 kv.2) (PyVal.vdict true [])
        (flattenPerson p) = .ok (rawTree p) := by
  obtain ⟨nm, ag, jb, ad, hs, cs⟩ := p
  cases ad with
  | none =>
      simp only [flattenPerson]
      simp only [List.enum_eq_enumFrom]
      have hAB : List.foldlM (fun o kv => parseItem o kv.1 kv.2) (PyVal.vdict true [])
          ([(mkKey ["name".toList], PyVal.vstr nm),
            (mkKey ["age".toList], PyVal.vstr (natStr ag)),
            (mkKey ["job".toList], PyVal.vstr jb)] ++ [])
          = .ok (.vdict true
            [("name".toList, PyVal.vstr nm), ("age".toList, PyVal.vstr (natStr ag)),
             ("job".toList, PyVal.vstr jb)]) := rfl
      have hH := hobbies_group hs
        [("name".toList, PyVal.vstr nm), ("age".toList, PyVal.vstr (natStr ag)),
         ("job".toList, PyVal.vstr jb)] rfl
      have hC := contacts_group cs
        ([("name".toList, PyVal.vstr nm), ("age".toList, PyVal.vstr (natStr ag)),
          ("job".toList, PyVal.vstr jb)] ++ hobEntriesRaw hs)
        (by cases hs <;> rfl)
      exact foldlM_append_ok (foldlM_append_ok hAB hH) hC
  | some a =>
      simp only [flattenPerson]
      simp only [List.enum_eq_enumFrom]
      have hAB : List.foldlM (fun o kv => parseItem o kv.1 kv.2) (PyVal.vdict true [])
          ([(mkKey ["name".toList], PyVal.vstr nm),
            (mkKey ["age".toList], PyVal.vstr (natStr ag)),
            (mkKey ["job".toList], PyVal.vstr jb)] ++
           [(mkKey ["address".toList, "house_number".toList], PyVal.vstr (intStr a.house_number)),
            (mkKey ["address".toList, "street".toList], PyVal.vstr a.street),
            (mkKey ["address".toList, "city".toList], PyVal.vstr a.city)])
          = .ok (.vdict true
            [("name".toList, PyVal.vstr nm), ("age".toList, PyVal.vstr (natStr ag)),
             ("job".toList, PyVal.vstr jb),
             ("address".toList, PyVal.vdict true
               [("house_number".toList, PyVal.vstr (intStr a.house_number)),
                ("street".toList, PyVal.vstr a.street),
                ("city".toList, PyVal.vstr a.city)])]) := rfl
      have hH := hobbies_group hs
        [("name".toList, PyVal.vstr nm), ("age".toList, PyVal.vstr (natStr ag)),
         ("job".toList, PyVal.vstr jb),
         ("address".toList, PyVal.vdict true
           [("house_number".toList, PyVal.vstr (intStr a.house_number)),
            ("street".toList, PyVal.vstr a.street),
            ("city".toList, PyVal.vstr a.city)])] rfl
      have hC := contacts_group cs
        ([("name".toList, PyVal.vstr nm), ("age".toList, PyVal.vstr (natStr ag)),
          ("job".toList, PyVal.vstr jb),
          ("address".toList, PyVal.vdict true
            [("house_number".toList, PyVal.vstr (intStr a.house_number)),
             ("street".toList, PyVal.vstr a.street),
             ("city".toList, PyVal.vstr a.city)])] ++ hobEntriesRaw hs)
        (by cases hs <;> rfl)
      exact foldlM_append_ok (foldlM_append_ok hAB hH) hC

/-- Entrywise conversion distributes over append. -/
theorem convEntries_append : ∀ l₁ l₂ : List (List Char × PyVal),
    convEntries (l₁ ++ l₂) = convEntries l₁ ++ convEntries l₂
  | [], _ => rfl
  | kv :: rest, l₂ => by
      show (kv.1, convEntry kv.2) :: convEntries (rest ++ l₂) = _
      rw [convEntries_append rest l₂]
      rfl

/-- All hobby pair keys are numerals. -/
theorem allDigitKeys_hobPairs (hs : List String) : ∀ i : Nat,
    allDigitKeys (hobPairs i hs) = true := by
  induction hs with
  | nil => intro i; rfl
  | cons h t ih =>
      intro i
      rw [hobPairs_cons]
      simp [allDigitKeys, pyIsdigit_natChars]
      have := ih (i + 1)
      simpa [allDigitKeys] using this

/-- All contact pair keys are numerals. -/
theorem allDigitKeys_conPairs (cs : List Contact) : ∀ i : Nat,
    allDigitKeys (conPairs i cs) = true := by
  induction cs with
  | nil => intro i; rfl
  | cons c t ih =>
      intro i
      rw [conPairs_cons]
      simp [allDigitKeys, pyIsdigit_natChars]
      have := ih (i + 1)
      simpa [allDigitKeys] using this

/-- Converting the hobby pair values yields the bare string list. -/
theorem convValues_hobPairs (hs : List String) : ∀ i : Nat,
    convValues (hobPairs i hs) = hs.map PyVal.vstr := by
  induction hs with
  | nil => intro i; rfl
  | cons h t ih =>
      intro i
      rw [hobPairs_cons]
      show indexed_dicts_to_lists (PyVal.vstr h) :: convValues (hobPairs (i + 1) t) = _
      rw [ih (i + 1)]
      rfl

/-- Normalizing a raw contact sub-dict. -/
theorem idtl_contactTree (c : Contact) :
    indexed_dicts_to_lists (contactTree c) = contactTreeNorm c := by
  cases c <;> rfl

/-- Converting the contact pair values yields the normalized contact dicts. -/
theorem convValues_conPairs (cs : List Contact) : ∀ i : Nat,
    convValues (conPairs i cs) = cs.map contactTreeNorm := by
  induction cs with
  | nil => intro i; rfl
  | cons c t ih =>
      intro i
      rw [conPairs_cons]
      show indexed_dicts_to_lists (contactTree c) :: convValues (conPairs (i + 1) t) = _
      rw [ih (i + 1), idtl_contactTree]
      rfl

/-- Normalizing the raw tree of a serialized person gives the normalized
tree: the hobbies and contacts dicts become lists (in index order), all other
nodes keep their shape. -/
theorem idtl_rawTree (p : Person) :
    indexed_dicts_to_lists (rawTree p) = normTree p := by
  obtain ⟨nm, ag, jb, ad, hs, cs⟩ := p
  unfold rawTree normTree
  simp only
  have hcond : ((([("name".toList, PyVal.vstr nm), ("age".toList, PyVal.vstr (natStr ag)),
      ("job".toList, PyVal.vstr jb)] ++ addrEntriesRaw ad ++ hobEntriesRaw hs
      ++ conEntriesRaw cs).length != 0)
      && allDigitKeys ([("name".toList, PyVal.vstr nm), ("age".toList, PyVal.vstr (natStr ag)),
      ("job".toList, PyVal.vstr jb)] ++ addrEntriesRaw ad ++ hobEntriesRaw hs
      ++ conEntriesRaw cs)) = false := by
    simp [allDigitKeys, pyIsdigit]
  rw [show indexed_dicts_to_lists (PyVal.vdict true
      ([("name".toList, PyVal.vstr nm), ("age".toList, PyVal.vstr (natStr ag)),
        ("job".toList, PyVal.vstr jb)] ++ addrEntriesRaw ad ++ hobEntriesRaw hs
        ++ conEntriesRaw cs))
      = .vdict false (convEntries
      ([("name".toList, PyVal.vstr nm), ("age".toList, PyVal.vstr (natStr ag)),
        ("job".toList, PyVal.vstr jb)] ++ addrEntriesRaw ad ++ hobEntriesRaw hs
        ++ conEntriesRaw cs)) from by
    simp only [indexed_dicts_to_lists, hcond]
    rfl]
  rw [convEntries_append, convEntries_append, convEntries_append]
  have h1 : convEntries [("name".toList, PyVal.vstr nm), ("age".toList, PyVal.vstr (natStr ag)),
      ("job".toList, PyVal.vstr jb)]
      = [("name".toList, PyVal.vstr nm), ("age".toList, PyVal.vstr (natStr ag)),
         ("job".toList, PyVal.vstr jb)] := rfl
  have h2 : convEntries (addrEntriesRaw ad) = addrEntriesNorm ad := by
    cases ad <;> rfl
  have h3 : convEntries (hobEntriesRaw hs) = hobEntriesNorm hs := by
    cases hs with
    | nil => rfl
    | cons h t =>
        show (("hobbies".toList, convEntry (PyVal.vdict true (hobPairs 0 (h :: t)))) :: [])
          = hobEntriesNorm (h :: t)
        rw [show convEntry (PyVal.vdict true (hobPairs 0 (h :: t)))
            = .vlist (convValues (hobPairs 0 (h :: t))) from by
          simp only [convEntry, allDigitKeys_hobPairs (h :: t) 0, if_true]]
        rw [convValues_hobPairs (h :: t) 0]
        rfl
  have h4 : convEntries (conEntriesRaw cs) = conEntriesNorm cs := by
    cases cs with
    | nil => rfl
    | cons c t =>
        show (("contacts".toList, convEntry (PyVal.vdict true (conPairs 0 (c :: t)))) :: [])
          = conEntriesNorm (c :: t)
        rw [show convEntry (PyVal.vdict true (conPairs 0 (c :: t)))
            = .vlist (convValues (conPairs 0 (c :: t))) from by
          simp only [convEntry, allDigitKeys_conPairs (c :: t) 0, if_true]]
        rw [convValues_conPairs (c :: t) 0]
        rfl
  rw [h1, h2, h3, h4]

/-! ### Validation of the normalized tree -/

/-- Validating the serialized age numeral recovers the age. -/
theorem vNat_natStr (path : List String) (n : Nat) :
    vNat path (.vstr (natStr n)) = .ok n := by
  unfold vNat
  dsimp only
  rw [show (natStr n).toList = natChars n from rfl, parseInt?_natChars]
  simp

/-- Validating a serialized integer numeral recovers the integer. -/
theorem vInt_intStr (path : List String) (m : Int) :
    vInt path (.vstr (intStr m)) = .ok m := by
  unfold vInt
  dsimp only
  rw [show (intStr m).toList = intChars m from rfl, parseInt?_intChars]

/-- Validating a serialized timestamp numeral recovers the timestamp. -/
theorem vTimestamp_natStr (path : List String) (n : Nat) :
    vTimestamp path (.vstr (natStr n)) = .ok n := by
  unfold vTimestamp
  dsimp only
  rw [show (natStr n).toList = natChars n from rfl, parseNat?_natChars]

/-- Validating a list of string leaves succeeds with the underlying list. -/
theorem vStrList_map (hs : List String) : ∀ (base : List String) (i : Nat),
    vStrList base i (hs.map PyVal.vstr) = .ok hs := by
  induction hs with
  | nil => intro base i; rfl
  | cons h t ih =>
      intro base i
      show vStrList base i (PyVal.vstr h :: t.map PyVal.vstr) = .ok (h :: t)
      unfold vStrList
      rw [ih base (i + 1)]
      rfl

/-- Validating a normalized contact sub-dict recovers the contact: the
discriminator selects the variant and the variant fields parse back. -/
theorem vContact_norm (c : Contact) (base : List String) :
    vContact base (contactTreeNorm c) = .ok c := by
  cases c with
  | contact nm => rfl
  | friend nm ts =>
      show vContact base (.vdict false
        [("_type".toList, .vstr "Friend"), ("name".toList, .vstr nm),
         ("known_since".toList, .vstr (natStr ts))]) = .ok (.friend nm ts)
      unfold vContact
      rw [show get_discriminator_value (PyVal.vdict false
          [("_type".toList, .vstr "Friend"), ("name".toList, .vstr nm),
           ("known_since".toList, .vstr (natStr ts))]) = some (.vstr "Friend") from rfl]
      simp only [reduceIte]
      rw [show reqField
          [("_type".toList, PyVal.vstr "Friend"), ("name".toList, PyVal.vstr nm),
           ("known_since".toList, PyVal.vstr (natStr ts))] base "known_since" vTimestamp
          = vTimestamp (base ++ ["known_since"]) (.vstr (natStr ts)) from rfl]
      rw [vTimestamp_natStr]
      rfl
  | familyMember nm r => rfl

/-- Validating a list of normalized contact sub-dicts succeeds with the
underlying contacts. -/
theorem vContactList_map (cs : List Contact) : ∀ (base : List String) (i : Nat),
    vContactList base i (cs.map contactTreeNorm) = .ok cs := by
  induction cs with
  | nil => intro base i; rfl
  | cons c t ih =>
      intro base i
      show vContactList base i (contactTreeNorm c :: t.map contactTreeNorm) = .ok (c :: t)
      unfold vContactList
      rw [ih base (i + 1), vContact_norm]
      rfl

/-- Validating the normalized tree of a serialized person recovers exactly the
person. -/
theorem validate_normTree (p : Person) : validatePerson (normTree p) = .ok p := by
  obtain ⟨nm, ag, jb, ad, hs, cs⟩ := p
  unfold normTree
  simp only
  cases ad with
  | none =>
      cases hs with
      | nil =>
          cases cs with
          | nil =>
              show mergeE (fun n r => (⟨n, r.1, r.2.1, r.2.2.1, r.2.2.2.1, r.2.2.2.2⟩ : Person))
                        (Except.ok nm)
                        (mergeE Prod.mk (vNat ["age"] (.vstr (natStr ag)))
                          (mergeE Prod.mk (Except.ok jb)
                            (mergeE Prod.mk (Except.ok none)
                              (mergeE Prod.mk (Except.ok []) (Except.ok [])))))
                        = Except.ok (⟨nm, ag, jb, none, [], []⟩ : Person)
              rw [vNat_natStr]
              rfl
          | cons c tc =>
              show mergeE (fun n r => (⟨n, r.1, r.2.1, r.2.2.1, r.2.2.2.1, r.2.2.2.2⟩ : Person))
                        (Except.ok nm)
                        (mergeE Prod.mk (vNat ["age"] (.vstr (natStr ag)))
                          (mergeE Prod.mk (Except.ok jb)
                            (mergeE Prod.mk (Except.ok none)
                              (mergeE Prod.mk (Except.ok []) (vContactList ["contacts"] 0 ((c :: tc).map contactTreeNorm))))))
                        = Except.ok (⟨nm, ag, jb, none, [], c :: tc⟩ : Person)
              rw [vNat_natStr, vContactList_map]
              rfl
      | cons h th =>
          cases cs with
          | nil =>
              show mergeE (fun n r => (⟨n, r.1, r.2.1, r.2.2.1, r.2.2.2.1, r.2.2.2.2⟩ : Person))
                        (Except.ok nm)
                        (mergeE Prod.mk (vNat ["age"] (.vstr (natStr ag)))
                          (mergeE Prod.mk (Except.ok jb)
                            (mergeE Prod.mk (Except.ok none)
                              (mergeE Prod.mk (vStrList ["hobbies"] 0 ((h :: th).map PyVal.vstr)) (Except.ok [])))))
                        = Except.ok (⟨nm, ag, jb, none, h :: th, []⟩ : Person)
              rw [vNat_natStr, vStrList_map]
              rfl
          | cons c tc =>
              show mergeE (fun n r => (⟨n, r.1, r.2.1, r.2.2.1, r.2.2.2.1, r.2.2.2.2⟩ : Person))
                        (Except.ok nm)
                        (mergeE Prod.mk (vNat ["age"] (.vstr (natStr ag)))
                          (mergeE Prod.mk (Except.ok jb)
                            (mergeE Prod.mk (Except.ok none)
                              (mergeE Prod.mk (vStrList ["hobbies"] 0 ((h :: th).map PyVal.vstr)) (vContactList ["contacts"] 0 ((c :: tc).map contactTreeNorm))))))
                        = Except.ok (⟨nm, ag, jb, none, h :: th, c :: tc⟩ : Person)
              rw [vNat_natStr, vStrList_map, vContactList_map]
              rfl
  | some a =>
      cases hs with
      | nil =>
          cases cs with
          | nil =>
              show mergeE (fun n r => (⟨n, r.1, r.2.1, r.2.2.1, r.2.2.2.1, r.2.2.2.2⟩ : Person))
                        (Except.ok nm)
                        (mergeE Prod.mk (vNat ["age"] (.vstr (natStr ag)))
                          (mergeE Prod.mk (Except.ok jb)
                            (mergeE Prod.mk ((mergeE (fun hn sc => (⟨hn, sc.1, sc.2⟩ : Address))
                          (vInt ["address", "house_number"] (.vstr (intStr a.house_number)))
                          (Except.ok (a.street, a.city))).map some)
                              (mergeE Prod.mk (Except.ok []) (Except.ok [])))))
                        = Except.ok (⟨nm, ag, jb, some a, [], []⟩ : Person)
              rw [vNat_natStr, vInt_intStr]
              rfl
          | cons c tc =>
              show mergeE (fun n r => (⟨n, r.1, r.2.1, r.2.2.1, r.2.2.2.1, r.2.2.2.2⟩ : Person))
                        (Except.ok nm)
                        (mergeE Prod.mk (vNat ["age"] (.vstr (natStr ag)))
                          (mergeE Prod.mk (Except.ok jb)
                            (mergeE Prod.mk ((mergeE (fun hn sc => (⟨hn, sc.1, sc.2⟩ : Address))
                          (vInt ["address", "house_number"] (.vstr (intStr a.house_number)))
                          (Except.ok (a.street, a.city))).map some)
                              (mergeE Prod.mk (Except.ok []) (vContactList ["contacts"] 0 ((c :: tc).map contactTreeNorm))))))
                        = Except.ok (⟨nm, ag, jb, some a, [], c :: tc⟩ : Person)
              rw [vNat_natStr, vInt_intStr, vContactList_map]
              rfl
      | cons h th =>
          cases cs with
          | nil =>
              show mergeE (fun n r => (⟨n, r.1, r.2.1, r.2.2.1, r.2.2.2.1, r.2.2.2.2⟩ : Person))
                        (Except.ok nm)
                        (mergeE Prod.mk (vNat ["age"] (.vstr (natStr ag)))
                          (mergeE Prod.mk (Except.ok jb)
                            (mergeE Prod.mk ((mergeE (fun hn sc => (⟨hn, sc.1, sc.2⟩ : Address))
                          (vInt ["address", "house_number"] (.vstr (intStr a.house_number)))
                          (Except.ok (a.street, a.city))).map some)
                              (mergeE Prod.mk (vStrList ["hobbies"] 0 ((h :: th).map PyVal.vstr)) (Except.ok [])))))
                        = Except.ok (⟨nm, ag, jb, some a, h :: th, []⟩ : Person)
              rw [vNat_natStr, vInt_intStr, vStrList_map]
              rfl
          | cons c tc =>
              show mergeE (fun n r => (⟨n, r.1, r.2.1, r.2.2.1, r.2.2.2.1, r.2.2.2.2⟩ : Person))
                        (Except.ok nm)
                        (mergeE Prod.mk (vNat ["age"] (.vstr (natStr ag)))
                          (mergeE Prod.mk (Except.ok jb)
                            (mergeE Prod.mk ((mergeE (fun hn sc => (⟨hn, sc.1, sc.2⟩ : Address))
                          (vInt ["address", "house_number"] (.vstr (intStr a.house_number)))
                          (Except.ok (a.street, a.city))).map some)
                              (mergeE Prod.mk (vStrList ["hobbies"] 0 ((h :: th).map PyVal.vstr)) (vContactList ["contacts"] 0 ((c :: tc).map contactTreeNorm))))))
                        = Except.ok (⟨nm, ag, jb, some a, h :: th, c :: tc⟩ : Person)
              rw [vNat_natStr, vInt_intStr, vStrList_map, vContactList_map]
              rfl

/-- Decoding a serialized person yields the normalized tree. -/
theorem json_editor_parse_flatten (p : Person) :
    json_editor_parse (flattenPerson p) = .ok (normTree p) := by
  unfold json_editor_parse
  rw [fold_flattenPerson]
  show Except.ok (indexed_dicts_to_lists (rawTree p)) = Except.ok (normTree p)
  rw [idtl_rawTree]

/-- Claim C1: round-trip.  For every typed `Person` (arbitrary name, age,
job, optional address, hobbies and discriminated-union contacts),
serializing it to the flat bracket form with `flattenPerson` and running the
full decode-and-validate pipeline yields exactly the original value. -/
theorem person_roundtrip (p : Person) :
    person_from_form (flattenPerson p) = .ok p := by
  unfold person_from_form
  rw [json_editor_parse_flatten]
  show (match validatePerson (normTree p) with
    | Except.error errs => Except.error (FormError.validation errs)
    | Except.ok q => Except.ok q) = Except.ok p
  rw [validate_normTree]
